import Mathlib

set_option maxRecDepth 8000
set_option linter.unusedVariables false

/-!
A shallow embedding of the `defaulter` Swift middleware (`src/defaulter.py`)
and proofs about it.

The middleware stores "default header" declarations in account/container
system metadata and applies them to PUT requests.  Python strings are
modelled as Lean `String`; the case-insensitive WSGI header mapping
(`swob`) is modelled as an association list with case-insensitive lookup
and in-place replacement; Python `dict`s (the `defaults` dict of
`get_defaults` and the sysmeta/config mappings) are association lists with
case-sensitive keys, insertion order preserved, in-place overwrite.  The
downstream WSGI application is modelled as a function from forwarded
request headers to response headers.
-/

/-! ## Python string primitives -/

/-- Python `s.lower()` restricted to ASCII, as used on header names. -/
def strLower (s : String) : String := String.mk (s.data.map Char.toLower)

/-- Python `s.startswith(p)`. -/
def strStartsWith (s p : String) : Bool := p.data.isPrefixOf s.data

/-- Python `s[n:]`. -/
def strDrop (s : String) (n : Nat) : String := String.mk (s.data.drop n)

/-- Python `len(s)`. -/
def strLen (s : String) : Nat := s.data.length

/-! ## The case-insensitive WSGI header mapping (swob request/response headers) -/

/-- Request/response headers: list of (name, value), with case-insensitive
name matching, modelling swob's header mapping. -/
abbrev Headers := List (String × String)

/-- Case-insensitive header lookup (`req.headers[k]` / `k in req.headers`). -/
def hGet : Headers → String → Option String
  | [], _ => none
  | (h, v) :: rest, k => if strLower h = strLower k then some v else hGet rest k

/-- Does a header with this (case-insensitive) name exist? -/
def hContains : Headers → String → Bool
  | [], _ => false
  | (h, _) :: rest, k => if strLower h = strLower k then true else hContains rest k

/-- Replace the value of every entry matching `k` case-insensitively,
keeping the stored name. -/
def hReplace : Headers → String → String → Headers
  | [], _, _ => []
  | (h, v) :: rest, k, nv =>
    if strLower h = strLower k then (h, nv) :: hReplace rest k nv
    else (h, v) :: hReplace rest k nv

/-- `req.headers[k] = v`: overwrite if present (case-insensitively), else append. -/
def hSet (hs : Headers) (k v : String) : Headers :=
  if hContains hs k then hReplace hs k v else hs ++ [(k, v)]

/-- `req.headers.setdefault(k, v)`: set only when absent. -/
def hSetDefault (hs : Headers) (k v : String) : Headers :=
  if hContains hs k then hs else hs ++ [(k, v)]

/-! ## Python dict with string keys (config, sysmeta and the defaults dict) -/

/-- `d[k]` (exact keys, first match; a Python dict has unique keys). -/
def dictGet : List (String × String) → String → Option String
  | [], _ => none
  | (h, v) :: rest, k => if h = k then some v else dictGet rest k

def dictContains : List (String × String) → String → Bool
  | [], _ => false
  | (h, _) :: rest, k => if h = k then true else dictContains rest k

def dictReplace : List (String × String) → String → String → List (String × String)
  | [], _, _ => []
  | (h, v) :: rest, k, nv =>
    if h = k then (h, nv) :: dictReplace rest k nv else (h, v) :: dictReplace rest k nv

/-- `d[k] = v` on a Python dict: overwrite in place, else append (insertion order). -/
def dictSet (d : List (String × String)) (k v : String) : List (String × String) :=
  if dictContains d k then dictReplace d k v else d ++ [(k, v)]

/-! ## Model of Python `str.format(**format_args)` (the Template Formatter)

`value.format(**format_args)` is called with no positional arguments and a
keyword mapping.  We model simple replacement fields (the forms the
middleware documents: `{account}`, `{container}`, `{object}`): the text
between `\x7b` and `\x7d` is the field name; `\x7b\x7b` / `\x7d\x7d` are
escapes; an unmatched brace raises ValueError; an empty or all-digit field
name refers to the (empty) positional-argument tuple and raises IndexError;
any other field name is looked up among the keywords and raises KeyError
when absent.  Conversions, format specs, attribute access and nested
fields are not modelled. -/

inductive FmtError where
  | keyError
  | indexError
  | valueError
deriving DecidableEq

/-- Look up one replacement-field name, as `str.format` does when called
with no positional arguments. -/
def argsLookup (field : List Char) : List (String × String) → Except FmtError String
  | [] => Except.error FmtError.keyError
  | (k, v) :: rest => if k.data = field then Except.ok v else argsLookup field rest

/-- Resolve a replacement field: digits / auto-numbering hit the empty
positional tuple (IndexError), names hit the keyword mapping. -/
def lookupField (args : List (String × String)) (field : List Char) : Except FmtError String :=
  if field.all Char.isDigit then Except.error FmtError.indexError
  else argsLookup field args

/-- One-pass scanner for `str.format`.  First argument: `none` when in
literal text, `some acc` while reading a field name (accumulated reversed). -/
def parseFmtAux (args : List (String × String)) :
    Option (List Char) → List Char → Except FmtError (List Char)
  | none, [] => Except.ok []
  | none, '\x7b' :: '\x7b' :: rest =>
    match parseFmtAux args none rest with
    | Except.ok t => Except.ok ('\x7b' :: t)
    | Except.error e => Except.error e
  | none, '\x7d' :: '\x7d' :: rest =>
    match parseFmtAux args none rest with
    | Except.ok t => Except.ok ('\x7d' :: t)
    | Except.error e => Except.error e
  | none, '\x7b' :: rest => parseFmtAux args (some []) rest
  | none, '\x7d' :: _ => Except.error FmtError.valueError
  | none, c :: rest =>
    match parseFmtAux args none rest with
    | Except.ok t => Except.ok (c :: t)
    | Except.error e => Except.error e
  | some _, [] => Except.error FmtError.valueError
  | some acc, '\x7d' :: rest =>
    match lookupField args acc.reverse with
    | Except.error e => Except.error e
    | Except.ok v =>
      match parseFmtAux args none rest with
      | Except.ok t => Except.ok (v.data ++ t)
      | Except.error e => Except.error e
  | some acc, c :: rest => parseFmtAux args (some (c :: acc)) rest

/-- Python `s.format(**args)` with empty positional arguments. -/
def pyFormat (s : String) (args : List (String × String)) : Except FmtError String :=
  match parseFmtAux args none s.data with
  | Except.ok l => Except.ok (String.mk l)
  | Except.error e => Except.error e

/-- The per-value transform of `get_defaults` (src/defaulter.py:148-154):
when `use_formatting` is on, try `value.format(**format_args)`, swallowing
only `KeyError`; other formatting errors propagate. -/
def resolveValue (useFmt : Bool) (args : List (String × String)) (v : String) :
    Except FmtError String :=
  if useFmt then
    match pyFormat v args with
    | Except.ok s => Except.ok s
    | Except.error FmtError.keyError => Except.ok v
    | Except.error e => Except.error e
  else Except.ok v

/-! ## The middleware's data model -/

inductive ReqType where
  | account
  | container
  | object
deriving DecidableEq

def typeName : ReqType → String
  | ReqType.account => "account"
  | ReqType.container => "container"
  | ReqType.object => "object"

/-- Swift's `get_sys_meta_prefix(req_type)`, i.e. `x-<type>-sysmeta-`. -/
def sysMetaPre (t : ReqType) : String := "x-" ++ typeName t ++ "-sysmeta-"

/-- The config / sysmeta key namespace scanned by `get_defaults`:
`default-<type>-` (src/defaulter.py:144). -/
def defaultPre (t : ReqType) : String := "default-" ++ typeName t ++ "-"

/-- The subresources legal at each depth (src/defaulter.py:94-97). -/
def subresources : ReqType → List String
  | ReqType.account => ["container", "object"]
  | ReqType.container => ["object"]
  | ReqType.object => []

/-- Middleware configuration: the `use_formatting` flag plus the
`default-*` cluster-wide entries of `self.conf`. -/
structure Config where
  use_formatting : Bool
  entries : List (String × String)

/-! ## get_defaults (src/defaulter.py:136-156) -/

/-- One source pass of `get_defaults`: for each key matching the
`default-<type>-` namespace (case-insensitively), resolve the value
(formatting) and overwrite `defaults[key[len(pre):]]`. -/
def processSrc (useFmt : Bool) (args : List (String × String)) (pre : String) :
    List (String × String) → List (String × String) →
    Except FmtError (List (String × String))
  | [], d => Except.ok d
  | (k, v) :: rest, d =>
    if strStartsWith (strLower k) pre then
      match resolveValue useFmt args v with
      | Except.ok rv => processSrc useFmt args pre rest (dictSet d (strDrop k (strLen pre)) rv)
      | Except.error e => Except.error e
    else processSrc useFmt args pre rest d

/-- `get_defaults(req, req_type, format_args)`: merge cluster config, then
account sysmeta, then (for object requests) container sysmeta. -/
def get_defaults (conf : Config) (acctMeta contMeta : List (String × String))
    (t : ReqType) (args : List (String × String)) :
    Except FmtError (List (String × String)) :=
  match processSrc conf.use_formatting args (defaultPre t) conf.entries [] with
  | Except.error e => Except.error e
  | Except.ok d1 =>
    match processSrc conf.use_formatting args (defaultPre t) acctMeta d1 with
    | Except.error e => Except.error e
    | Except.ok d2 =>
      processSrc conf.use_formatting args (defaultPre t)
        (if t = ReqType.object then contMeta else []) d2

/-! ## do_post: declaration capture (src/defaulter.py:90-114) -/

/-- The header pattern scanned for, `x-default-<sub>-` or
`x-remove-default-<sub>-` (src/defaulter.py:99-102). -/
def capHeaderPre (clear : Bool) (sub : String) : String :=
  (if clear then "x-remove-default-" else "x-default-") ++ (sub ++ "-")

/-- The sysmeta header written for a captured declaration:
`<sysmeta-prefix>default-<sub>-<attr>` (src/defaulter.py:108-111). -/
def capKey (t : ReqType) (sub attr : String) : String :=
  (sysMetaPre t ++ "default-") ++ (sub ++ ("-" ++ attr))

/-- Innermost loop of `do_post`: try each legal subresource against one
header from the snapshot, writing the sysmeta header on a match. -/
def subLoop (t : ReqType) (clear : Bool) (h v : String) :
    List String → Headers → Headers
  | [], cur => cur
  | sub :: subs, cur =>
    subLoop t clear h v subs
      (if strStartsWith (strLower h) (capHeaderPre clear sub) then
        hSet cur (capKey t sub (strDrop h (strLen (capHeaderPre clear sub))))
          (if clear then "" else v)
      else cur)

/-- Middle loop of `do_post`: iterate the snapshot of `req.headers.items()`
taken at the start of this pattern pass, mutating the live headers. -/
def capLoop (t : ReqType) (clear : Bool) :
    List (String × String) → Headers → Headers
  | [], cur => cur
  | (h, v) :: rest, cur => capLoop t clear rest (subLoop t clear h v (subresources t) cur)

/-- One pattern pass (set or clear) of `do_post` over the current headers. -/
def capturePass (t : ReqType) (clear : Bool) (hs : Headers) : Headers :=
  capLoop t clear hs hs

/-- The request-header mutation performed by `do_post`: nothing at object
depth; otherwise the set pass then the clear pass (in the order of
`header_formats`), each iterating a fresh `items()` snapshot. -/
def do_post_req (t : ReqType) (hs : Headers) : Headers :=
  match t with
  | ReqType.object => hs
  | _ => capturePass t true (capturePass t false hs)

/-! ## do_put (src/defaulter.py:117-134) -/

/-- Apply resolved defaults with `setdefault`, in dict insertion order. -/
def applyDefaults : Headers → List (String × String) → Headers
  | hs, [] => hs
  | hs, (k, v) :: rest => applyDefaults (hSetDefault hs k v) rest

/-- The request-header mutation performed by `do_put`: resolve defaults
(possibly failing on a formatting error), `setdefault` each one, then
follow the `do_post` capture flow. -/
def do_put_req (conf : Config) (acctMeta contMeta : List (String × String))
    (t : ReqType) (args : List (String × String)) (hs : Headers) :
    Except FmtError Headers :=
  match get_defaults conf acctMeta contMeta t args with
  | Except.error e => Except.error e
  | Except.ok d => Except.ok (do_post_req t (applyDefaults hs d))

/-! ## get_response_and_translate (src/defaulter.py:81-88) -/

/-- Loop of `get_response_and_translate` over the snapshot of the response
headers: each header in the `<sysmeta-prefix>default-` namespace gets a
client-facing twin `x-default-<remainder>` with the same value. -/
def transLoop (t : ReqType) : List (String × String) → Headers → Headers
  | [], cur => cur
  | (h, v) :: rest, cur =>
    transLoop t rest
      (if strStartsWith (strLower h) (sysMetaPre t ++ "default-") then
        hSet cur ("x-default-" ++ strDrop h (strLen (sysMetaPre t ++ "default-"))) v
      else cur)

/-- The response-header mutation of `get_response_and_translate`. -/
def translateHeaders (t : ReqType) (resp : Headers) : Headers := transLoop t resp resp

/-! ## __call__ (src/defaulter.py:61-79) -/

/-- Parsed path components, as produced by `req.split_path(2, 4, True)`:
version and account always present, container and object optional. -/
structure PathInfo where
  vers : String
  acct : String
  cont : Option String
  obj : Option String

/-- Request-type classification of `__call__` (src/defaulter.py:72-77). -/
def reqTypeOf (pi : PathInfo) : ReqType :=
  match pi.obj with
  | some _ => ReqType.object
  | none =>
    match pi.cont with
    | some _ => ReqType.container
    | none => ReqType.account

/-- `format_args` built by `do_put` from the (re-)parsed path. -/
def formatArgs (pi : PathInfo) : List (String × String) :=
  [("account", pi.acct)] ++
    (match pi.cont with
     | some c => [("container", c)]
     | none => []) ++
    (match pi.obj with
     | some o => [("object", o)]
     | none => [])

/-- The HTTP method, as dispatched by `getattr(self, 'do_%s' % method)`:
only `do_put` and `do_post` exist; everything else falls back to
`get_response_and_translate`. -/
inductive Method where
  | put
  | post
  | other
deriving DecidableEq

/-- An inbound request: the result of `split_path` (`none` models the
`ValueError` branch) and the mutable headers. -/
structure Request where
  parsed : Option PathInfo
  headers : Headers

/-- The request headers the downstream application receives.  On an
unparseable path, `__call__` returns `self.app` directly, so the request
goes through untouched. -/
def callForward (conf : Config) (acctMeta contMeta : List (String × String))
    (m : Method) (req : Request) : Except FmtError Headers :=
  match req.parsed with
  | none => Except.ok req.headers
  | some pi =>
    match m with
    | Method.put => do_put_req conf acctMeta contMeta (reqTypeOf pi) (formatArgs pi) req.headers
    | Method.post => Except.ok (do_post_req (reqTypeOf pi) req.headers)
    | Method.other => Except.ok req.headers

/-- The whole middleware: every parsed request, whatever its method, ends
in `get_response_and_translate` (do_put funnels into do_post which funnels
into get_response_and_translate); an unparseable path bypasses everything,
including response translation.  `app` models the downstream pipeline. -/
def callMiddleware (app : Headers → Headers) (conf : Config)
    (acctMeta contMeta : List (String × String)) (m : Method) (req : Request) :
    Except FmtError Headers :=
  match req.parsed with
  | none => Except.ok (app req.headers)
  | some pi =>
    match callForward conf acctMeta contMeta m req with
    | Except.error e => Except.error e
    | Except.ok fwd => Except.ok (translateHeaders (reqTypeOf pi) (app fwd))

/-! ## Specification-side observation functions

These mirror the iteration order of the loops above and are used to state
the claims; they are not part of the embedded code. -/

/-- The value of the winning (= last processed) declaration for `attr`
among a source's entries, i.e. the entry whose key lies in the `pre`
namespace (case-insensitively) and whose key, after the namespace, is
exactly `attr`. -/
def lastDeclared (pre attr : String) : List (String × String) → Option String
  | [] => none
  | (k, v) :: rest =>
    match lastDeclared pre attr rest with
    | some w => some w
    | none =>
      if strStartsWith (strLower k) pre = true ∧ strDrop k (strLen pre) = attr then some v
      else none

/-- The value the innermost `do_post` loop writes to sysmeta header `K`
(case-insensitively) while scanning one header `(h, v)`, if any. -/
def subWriteVal (t : ReqType) (clear : Bool) (h v K : String) : List String → Option String
  | [] => none
  | sub :: subs =>
    match subWriteVal t clear h v K subs with
    | some w => some w
    | none =>
      if strStartsWith (strLower h) (capHeaderPre clear sub) = true ∧
          strLower (capKey t sub (strDrop h (strLen (capHeaderPre clear sub)))) = strLower K
      then some (if clear then "" else v)
      else none

/-- The last value one capture pass writes to sysmeta header `K` while
scanning the snapshot, if any. -/
def lastCaptured (t : ReqType) (clear : Bool) (K : String) :
    List (String × String) → Option String
  | [] => none
  | (h, v) :: rest =>
    match lastCaptured t clear K rest with
    | some w => some w
    | none => subWriteVal t clear h v K (subresources t)

/-- The client-facing header name derived from a sysmeta response header
by `get_response_and_translate`. -/
def clientName (t : ReqType) (h : String) : String :=
  "x-default-" ++ strDrop h (strLen (sysMetaPre t ++ "default-"))

/-- The value that the last translation write to client header `n`
(case-insensitively) carries while scanning the response snapshot, if any. -/
def lastExposed (t : ReqType) (n : String) : List (String × String) → Option String
  | [] => none
  | (h, v) :: rest =>
    match lastExposed t n rest with
    | some w => some w
    | none =>
      if strStartsWith (strLower h) (sysMetaPre t ++ "default-") = true ∧
          strLower (clientName t h) = strLower n
      then some v
      else none

/-! ## Basic facts about the string primitives -/

theorem strExt {a b : String} (h : a.data = b.data) : a = b := by
  cases a; cases b; cases h; rfl

theorem strData_append (a b : String) : (a ++ b).data = a.data ++ b.data := by
  cases a; cases b; rfl

theorem strLower_data (s : String) : (strLower s).data = s.data.map Char.toLower := rfl

theorem strLower_append (a b : String) : strLower (a ++ b) = strLower a ++ strLower b := by
  apply strExt
  rw [strLower_data, strData_append, List.map_append, strData_append,
    strLower_data, strLower_data]

theorem isPrefixOf_self_append (a t : List Char) : a.isPrefixOf (a ++ t) = true := by
  induction a with
  | nil => simp [List.isPrefixOf]
  | cons x xs ih => simp [List.isPrefixOf, List.append_eq, ih]

theorem isPrefixOf_append_left (a : List Char) : ∀ (b t : List Char),
    a.length ≤ b.length → a.isPrefixOf (b ++ t) = a.isPrefixOf b := by
  induction a with
  | nil => intro b t _; simp [List.isPrefixOf]
  | cons x xs ih =>
    intro b t h
    cases b with
    | nil => simp at h
    | cons y ys =>
      simp only [List.cons_append, List.isPrefixOf, List.append_eq]
      rw [ih ys t (by simpa using h)]

theorem isPrefixOf_false_of_longer (b : List Char) : ∀ (a t : List Char),
    b.isPrefixOf a = false → b.length ≤ a.length → a.isPrefixOf (b ++ t) = false := by
  induction b with
  | nil => intro a t hb _; simp [List.isPrefixOf] at hb
  | cons y ys ih =>
    intro a t hb hlen
    cases a with
    | nil => simp at hlen
    | cons x xs =>
      simp only [List.isPrefixOf, List.append_eq, Bool.and_eq_false_iff] at hb
      simp only [List.cons_append, List.isPrefixOf, List.append_eq, Bool.and_eq_false_iff]
      by_cases hxy : x = y
      · subst hxy
        rcases hb with hb | hb
        · simp at hb
        · right; exact ih xs t hb (by simpa using hlen)
      · left
        exact beq_eq_false_iff_ne.mpr hxy

theorem isPrefixOf_of_append_left (a : List Char) : ∀ (b l : List Char),
    (a ++ b).isPrefixOf l = true → a.isPrefixOf l = true := by
  induction a with
  | nil => intro b l _; simp [List.isPrefixOf]
  | cons x xs ih =>
    intro b l h
    cases l with
    | nil => simp [List.isPrefixOf] at h
    | cons y ys =>
      simp only [List.cons_append, List.isPrefixOf, List.append_eq, Bool.and_eq_true] at h ⊢
      exact ⟨h.1, ih b ys h.2⟩

theorem isPrefixOf_mutual (a : List Char) : ∀ (b l : List Char),
    a.isPrefixOf l = true → b.isPrefixOf l = true → a.length ≤ b.length →
    a.isPrefixOf b = true := by
  induction a with
  | nil => intro b l _ _ _; simp [List.isPrefixOf]
  | cons x xs ih =>
    intro b l ha hb hlen
    cases b with
    | nil => simp at hlen
    | cons y ys =>
      cases l with
      | nil => simp [List.isPrefixOf] at ha
      | cons z zs =>
        simp only [List.isPrefixOf, Bool.and_eq_true, beq_iff_eq] at ha hb ⊢
        exact ⟨ha.1.trans hb.1.symm, ih ys zs ha.2 hb.2 (by simpa using hlen)⟩

theorem listDropLeft (a : List Char) : ∀ b : List Char, (a ++ b).drop a.length = b := by
  induction a with
  | nil => intro b; rfl
  | cons x xs ih => intro b; simp [ih b]

theorem strDrop_append (a b : String) : strDrop (a ++ b) (strLen a) = b := by
  apply strExt
  show ((a ++ b).data).drop a.data.length = b.data
  rw [strData_append, listDropLeft]

theorem strStartsWith_self_append (a t : String) : strStartsWith (a ++ t) a = true := by
  show a.data.isPrefixOf ((a ++ t).data) = true
  rw [strData_append]; exact isPrefixOf_self_append _ _

/-! ## Facts about the header mapping -/

theorem hGet_congr (hs : Headers) {k n : String} (hkn : strLower k = strLower n) :
    hGet hs k = hGet hs n := by
  induction hs with
  | nil => rfl
  | cons p rest ih =>
    obtain ⟨h, v⟩ := p
    simp only [hGet, hkn, ih]

theorem hGet_append (l1 l2 : Headers) (k : String) :
    hGet (l1 ++ l2) k =
      match hGet l1 k with
      | some w => some w
      | none => hGet l2 k := by
  induction l1 with
  | nil => rfl
  | cons p rest ih =>
    obtain ⟨h, v⟩ := p
    by_cases hc : strLower h = strLower k
    · simp [hGet, hc]
    · simp [hGet, hc, ih]

theorem hContains_eq_isSome (hs : Headers) (k : String) :
    hContains hs k = (hGet hs k).isSome := by
  induction hs with
  | nil => rfl
  | cons p rest ih =>
    obtain ⟨h, v⟩ := p
    by_cases hc : strLower h = strLower k
    · simp [hContains, hGet, hc]
    · simp [hContains, hGet, hc, ih]


theorem hGet_hReplace_eq (k v n : String) (hkn : strLower k = strLower n) :
    ∀ hs : Headers, hGet (hReplace hs k v) n = (hGet hs n).map (fun _ => v) := by
  intro hs
  induction hs with
  | nil => rfl
  | cons p rest ih =>
    obtain ⟨h, w⟩ := p
    by_cases hc : strLower h = strLower k
    · have hn : strLower h = strLower n := hc.trans hkn
      simp only [hReplace, if_pos hc, hGet, if_pos hn, Option.map_some']
    · have hn : ¬ strLower h = strLower n := fun he => hc (he.trans hkn.symm)
      simp only [hReplace, if_neg hc, hGet, if_neg hn, ih]

theorem hGet_hReplace_ne (k v n : String) (hkn : ¬ strLower k = strLower n) :
    ∀ hs : Headers, hGet (hReplace hs k v) n = hGet hs n := by
  intro hs
  induction hs with
  | nil => rfl
  | cons p rest ih =>
    obtain ⟨h, w⟩ := p
    by_cases hc : strLower h = strLower k
    · have hn : ¬ strLower h = strLower n := fun he => hkn (hc.symm.trans he)
      simp only [hReplace, if_pos hc, hGet, if_neg hn, ih]
    · by_cases hn : strLower h = strLower n
      · simp only [hReplace, if_neg hc, hGet, if_pos hn]
      · simp only [hReplace, if_neg hc, hGet, if_neg hn, ih]

theorem hGet_none_of_not_contains (hs : Headers) (k : String)
    (hc : hContains hs k = false) : hGet hs k = none := by
  have h1 := hContains_eq_isSome hs k
  rw [hc] at h1
  cases hg : hGet hs k
  · rfl
  · rw [hg] at h1; simp at h1

theorem hGet_hSet (hs : Headers) (k v n : String) :
    hGet (hSet hs k v) n = if strLower k = strLower n then some v else hGet hs n := by
  unfold hSet
  by_cases hc : hContains hs k
  · simp only [hc, if_true]
    by_cases hkn : strLower k = strLower n
    · rw [hGet_hReplace_eq k v n hkn, if_pos hkn]
      have hsome : (hGet hs k).isSome := by rw [← hContains_eq_isSome]; exact hc
      rw [hGet_congr hs hkn] at hsome
      obtain ⟨w, hw⟩ := Option.isSome_iff_exists.mp hsome
      simp [hw]
    · rw [hGet_hReplace_ne k v n hkn, if_neg hkn]
  · simp only [hc, if_false, Bool.false_eq_true]
    rw [hGet_append]
    by_cases hkn : strLower k = strLower n
    · have hnone : hGet hs k = none :=
        hGet_none_of_not_contains hs k (by rwa [Bool.not_eq_true] at hc)
      rw [hGet_congr hs hkn] at hnone
      simp [hnone, hGet, hkn]
    · cases hg : hGet hs n
      · simp [hGet, hkn]
      · simp [hkn]

theorem hGet_hSetDefault_some (hs : Headers) (k v n w : String)
    (h : hGet hs n = some w) : hGet (hSetDefault hs k v) n = some w := by
  unfold hSetDefault
  by_cases hc : hContains hs k
  · simp [hc, h]
  · simp only [hc, if_false, Bool.false_eq_true]
    rw [hGet_append, h]

theorem hGet_hSetDefault_none (hs : Headers) (k v n : String)
    (h : hGet hs n = none) (hkn : ¬ strLower k = strLower n) :
    hGet (hSetDefault hs k v) n = none := by
  unfold hSetDefault
  by_cases hc : hContains hs k
  · simp [hc, h]
  · simp only [hc, if_false, Bool.false_eq_true]
    rw [hGet_append, h]
    simp [hGet, hkn]

theorem hGet_hSetDefault_absent (hs : Headers) (k v : String)
    (h : hGet hs k = none) : hGet (hSetDefault hs k v) k = some v := by
  unfold hSetDefault
  have hc : hContains hs k = false := by
    rw [hContains_eq_isSome, h]; rfl
  simp only [hc, if_false, Bool.false_eq_true]
  rw [hGet_append, h]
  simp [hGet]

theorem hGet_isSome_of_mem {hs : Headers} {h v : String} (hm : (h, v) ∈ hs) :
    (hGet hs h).isSome := by
  induction hs with
  | nil => simp at hm
  | cons p rest ih =>
    obtain ⟨g, w⟩ := p
    rcases List.mem_cons.mp hm with he | hm'
    · injection he with h1 h2
      subst h1
      simp [hGet]
    · by_cases hc : strLower g = strLower h
      · simp [hGet, hc]
      · simp [hGet, hc, ih hm']

theorem mem_name_hReplace {hs : Headers} {h w : String} (k v : String)
    (hm : (h, w) ∈ hs) : ∃ w', (h, w') ∈ hReplace hs k v := by
  induction hs with
  | nil => simp at hm
  | cons p rest ih =>
    obtain ⟨g, u⟩ := p
    rcases List.mem_cons.mp hm with he | hm'
    · injection he with h1 h2
      subst h1
      by_cases hc : strLower h = strLower k
      · exact ⟨v, by simp [hReplace, hc]⟩
      · exact ⟨u, by simp [hReplace, hc]⟩
    · obtain ⟨w', hw'⟩ := ih hm'
      by_cases hc : strLower g = strLower k
      · exact ⟨w', by simp [hReplace, hc, hw']⟩
      · exact ⟨w', by simp [hReplace, hc, hw']⟩

theorem mem_name_hSet {hs : Headers} {h w : String} (k v : String)
    (hm : (h, w) ∈ hs) : ∃ w', (h, w') ∈ hSet hs k v := by
  unfold hSet
  by_cases hc : hContains hs k
  · simp only [hc, if_true]
    exact mem_name_hReplace k v hm
  · simp only [hc, if_false, Bool.false_eq_true]
    exact ⟨w, List.mem_append_left _ hm⟩

theorem mem_hReplace_name {hs : Headers} {p : String × String} (k v : String)
    (hp : p ∈ hReplace hs k v) : ∃ w, (p.1, w) ∈ hs := by
  induction hs with
  | nil => simp [hReplace] at hp
  | cons q rest ih =>
    obtain ⟨g, u⟩ := q
    by_cases hc : strLower g = strLower k
    · rw [hReplace, if_pos hc] at hp
      rcases List.mem_cons.mp hp with he | hp'
      · subst he; exact ⟨u, by simp⟩
      · obtain ⟨w, hw⟩ := ih hp'
        exact ⟨w, List.mem_cons_of_mem _ hw⟩
    · rw [hReplace, if_neg hc] at hp
      rcases List.mem_cons.mp hp with he | hp'
      · subst he; exact ⟨u, by simp⟩
      · obtain ⟨w, hw⟩ := ih hp'
        exact ⟨w, List.mem_cons_of_mem _ hw⟩

theorem mem_hSet_name {hs : Headers} {p : String × String} (k v : String)
    (hp : p ∈ hSet hs k v) : (∃ w, (p.1, w) ∈ hs) ∨ p.1 = k := by
  unfold hSet at hp
  by_cases hc : hContains hs k
  · rw [if_pos hc] at hp
    exact Or.inl (mem_hReplace_name k v hp)
  · rw [if_neg (by simp [hc])] at hp
    rcases List.mem_append.mp hp with hp' | hp'
    · exact Or.inl ⟨p.2, hp'⟩
    · simp at hp'
      subst hp'
      exact Or.inr rfl

/-! ## Facts about the Python dict operations -/

theorem dictGet_append (l1 l2 : List (String × String)) (k : String) :
    dictGet (l1 ++ l2) k =
      match dictGet l1 k with
      | some w => some w
      | none => dictGet l2 k := by
  induction l1 with
  | nil => rfl
  | cons p rest ih =>
    obtain ⟨h, v⟩ := p
    by_cases hc : h = k
    · simp [dictGet, hc]
    · simp [dictGet, hc, ih]

theorem dictContains_eq_isSome (d : List (String × String)) (k : String) :
    dictContains d k = (dictGet d k).isSome := by
  induction d with
  | nil => rfl
  | cons p rest ih =>
    obtain ⟨h, v⟩ := p
    by_cases hc : h = k
    · simp [dictContains, dictGet, hc]
    · simp [dictContains, dictGet, hc, ih]

theorem dictGet_dictReplace (k v n : String) :
    ∀ d : List (String × String),
      dictGet (dictReplace d k v) n =
        if k = n then (dictGet d n).map (fun _ => v) else dictGet d n := by
  intro d
  induction d with
  | nil => by_cases hkn : k = n <;> simp [dictReplace, dictGet, hkn]
  | cons p rest ih =>
    obtain ⟨h, w⟩ := p
    by_cases hc : h = k
    · subst hc
      by_cases hkn : h = n
      · subst hkn
        simp [dictReplace, dictGet]
      · simp only [dictReplace, if_pos rfl, dictGet, if_neg hkn, ih, if_neg hkn]
    · by_cases hn : h = n
      · subst hn
        have hkn : ¬ k = h := fun he => hc he.symm
        simp [dictReplace, if_neg hc, dictGet, if_neg hkn]
      · simp only [dictReplace, if_neg hc, dictGet, if_neg hn, ih]

theorem dictGet_none_of_not_contains (d : List (String × String)) (k : String)
    (hc : dictContains d k = false) : dictGet d k = none := by
  have h1 := dictContains_eq_isSome d k
  rw [hc] at h1
  cases hg : dictGet d k
  · rfl
  · rw [hg] at h1; simp at h1

theorem dictGet_dictSet (d : List (String × String)) (k v n : String) :
    dictGet (dictSet d k v) n = if k = n then some v else dictGet d n := by
  unfold dictSet
  by_cases hc : dictContains d k
  · rw [if_pos hc, dictGet_dictReplace]
    by_cases hkn : k = n
    · subst hkn
      rw [if_pos rfl, if_pos rfl]
      have hsome : (dictGet d k).isSome := by rw [← dictContains_eq_isSome]; exact hc
      obtain ⟨w, hw⟩ := Option.isSome_iff_exists.mp hsome
      simp [hw]
    · rw [if_neg hkn, if_neg hkn]
  · rw [if_neg (by simp [hc])]
    rw [dictGet_append]
    by_cases hkn : k = n
    · subst hkn
      have hnone : dictGet d k = none :=
        dictGet_none_of_not_contains d k (by rwa [Bool.not_eq_true] at hc)
      simp [hnone, dictGet]
    · cases hg : dictGet d n
      · simp [dictGet, hkn]
      · simp [hkn]

/-! ## Lowercase and namespace facts about the generated header names -/

theorem sysPre_lower (t : ReqType) :
    strLower (sysMetaPre t ++ "default-") = sysMetaPre t ++ "default-" := by
  cases t <;> decide

theorem capKey_lower (t : ReqType) (sub attr : String) :
    strLower (capKey t sub attr) =
      (sysMetaPre t ++ "default-") ++ strLower (sub ++ ("-" ++ attr)) := by
  unfold capKey
  rw [strLower_append, sysPre_lower]

theorem capKey_startsWith (t : ReqType) (sub attr : String) :
    strStartsWith (strLower (capKey t sub attr)) (sysMetaPre t ++ "default-") = true := by
  rw [capKey_lower]
  exact strStartsWith_self_append _ _

theorem capKey_data_lower (t : ReqType) (sub attr : String) :
    (strLower (capKey t sub attr)).data =
      (sysMetaPre t).data ++ ("default-".data ++ (strLower (sub ++ ("-" ++ attr))).data) := by
  rw [capKey_lower, strData_append, strData_append, List.append_assoc]

theorem capKey_not_capMatch (t : ReqType) (sub attr : String) (clear : Bool) (sub' : String) :
    strStartsWith (strLower (capKey t sub attr)) (capHeaderPre clear sub') = false := by
  cases hres : strStartsWith (strLower (capKey t sub attr)) (capHeaderPre clear sub')
  · rfl
  · exfalso
    unfold strStartsWith capHeaderPre at hres
    rw [strData_append] at hres
    have h1 := isPrefixOf_of_append_left _ _ _ hres
    rw [capKey_data_lower] at h1
    cases clear
    · rw [if_neg (by decide : ¬ (false = true))] at h1
      cases t <;> rw [isPrefixOf_append_left _ _ _ (by decide)] at h1 <;>
        exact absurd h1 (by decide)
    · rw [if_pos (rfl : (true = true))] at h1
      cases t <;> rw [isPrefixOf_append_left _ _ _ (by decide)] at h1 <;>
        exact absurd h1 (by decide)

theorem capKey_lower_ne (t : ReqType) (sub attr n : String)
    (hn : strStartsWith (strLower n) (sysMetaPre t ++ "default-") = false) :
    ¬ strLower (capKey t sub attr) = strLower n := by
  intro he
  have h1 := capKey_startsWith t sub attr
  rw [he, hn] at h1
  exact absurd h1 (by decide)

theorem transName_lower (r : String) :
    strLower ("x-default-" ++ r) = "x-default-" ++ strLower r := by
  have hx : strLower "x-default-" = "x-default-" := by decide
  rw [strLower_append, hx]

theorem transName_not_sysMatch (t : ReqType) (r n : String)
    (hn : strStartsWith (strLower n) (sysMetaPre t ++ "default-") = true) :
    ¬ strLower ("x-default-" ++ r) = strLower n := by
  intro he
  have h1 : ("x-default-" : String).data.isPrefixOf (strLower n).data = true := by
    rw [← he, transName_lower, strData_append]
    exact isPrefixOf_self_append _ _
  have h2 : (sysMetaPre t ++ "default-").data.isPrefixOf (strLower n).data = true := hn
  have h3 := isPrefixOf_mutual _ _ _ h1 h2 (by cases t <;> decide)
  cases t <;> exact absurd h3 (by decide)

/-! ## Characterization of the capture loops -/

theorem subLoop_get (t : ReqType) (clear : Bool) (h v K : String) :
    ∀ (subs : List String) (cur : Headers),
      hGet (subLoop t clear h v subs cur) K =
        match subWriteVal t clear h v K subs with
        | some w => some w
        | none => hGet cur K := by
  intro subs
  induction subs with
  | nil => intro cur; rfl
  | cons sub rest ih =>
    intro cur
    simp only [subLoop]
    rw [ih]
    cases hrec : subWriteVal t clear h v K rest with
    | some w => simp only [subWriteVal, hrec]
    | none =>
      simp only [subWriteVal, hrec]
      by_cases h1 : strStartsWith (strLower h) (capHeaderPre clear sub) = true
      · rw [if_pos h1, hGet_hSet]
        by_cases h2 : strLower (capKey t sub (strDrop h (strLen (capHeaderPre clear sub))))
            = strLower K
        · have hcond : strStartsWith (strLower h) (capHeaderPre clear sub) = true ∧
              strLower (capKey t sub (strDrop h (strLen (capHeaderPre clear sub))))
                = strLower K := ⟨h1, h2⟩
          rw [if_pos h2, if_pos hcond]
        · rw [if_neg h2, if_neg (fun hand => h2 hand.2)]
      · rw [if_neg h1, if_neg (fun hand => h1 hand.1)]

theorem capLoop_get (t : ReqType) (clear : Bool) (K : String) :
    ∀ (l : List (String × String)) (cur : Headers),
      hGet (capLoop t clear l cur) K =
        match lastCaptured t clear K l with
        | some w => some w
        | none => hGet cur K := by
  intro l
  induction l with
  | nil => intro cur; rfl
  | cons p rest ih =>
    intro cur
    obtain ⟨h, v⟩ := p
    simp only [capLoop]
    rw [ih]
    cases hrec : lastCaptured t clear K rest with
    | some w => simp only [lastCaptured, hrec]
    | none =>
      simp only [lastCaptured, hrec]
      exact subLoop_get t clear h v K (subresources t) cur

theorem capturePass_get (t : ReqType) (clear : Bool) (hs : Headers) (K : String) :
    hGet (capturePass t clear hs) K =
      match lastCaptured t clear K hs with
      | some w => some w
      | none => hGet hs K :=
  capLoop_get t clear K hs hs

/-! ## Characterization of the response translation loop -/

theorem transLoop_get (t : ReqType) (n : String) :
    ∀ (l : List (String × String)) (cur : Headers),
      hGet (transLoop t l cur) n =
        match lastExposed t n l with
        | some w => some w
        | none => hGet cur n := by
  intro l
  induction l with
  | nil => intro cur; rfl
  | cons p rest ih =>
    intro cur
    obtain ⟨h, v⟩ := p
    simp only [transLoop]
    rw [ih]
    cases hrec : lastExposed t n rest with
    | some w => simp only [lastExposed, hrec]
    | none =>
      simp only [lastExposed, hrec]
      by_cases h1 : strStartsWith (strLower h) (sysMetaPre t ++ "default-") = true
      · rw [if_pos h1, hGet_hSet]
        by_cases h2 : strLower (clientName t h) = strLower n
        · rw [show strLower ("x-default-" ++ strDrop h (strLen (sysMetaPre t ++ "default-")))
              = strLower (clientName t h) from rfl, if_pos h2, if_pos ⟨h1, h2⟩]
        · rw [show strLower ("x-default-" ++ strDrop h (strLen (sysMetaPre t ++ "default-")))
              = strLower (clientName t h) from rfl, if_neg h2, if_neg (fun hand => h2 hand.2)]
      · rw [if_neg h1, if_neg (fun hand => h1 hand.1)]

theorem translateHeaders_get (t : ReqType) (resp : Headers) (n : String) :
    hGet (translateHeaders t resp) n =
      match lastExposed t n resp with
      | some w => some w
      | none => hGet resp n :=
  transLoop_get t n resp resp

theorem lastExposed_none_intro (t : ReqType) (n : String) :
    ∀ l : List (String × String),
      (∀ p ∈ l, ¬(strStartsWith (strLower p.1) (sysMetaPre t ++ "default-") = true ∧
          strLower (clientName t p.1) = strLower n)) →
      lastExposed t n l = none := by
  intro l
  induction l with
  | nil => intro _; rfl
  | cons p rest ih =>
    intro hall
    obtain ⟨h, v⟩ := p
    have hrest := ih (fun q hq => hall q (List.mem_cons_of_mem _ hq))
    simp only [lastExposed, hrest]
    rw [if_neg (hall (h, v) (List.mem_cons_self _ _))]

/-! ## Value facts about the clear pass -/

theorem subWriteVal_clear_eq (t : ReqType) (h v K : String) :
    ∀ subs w, subWriteVal t true h v K subs = some w → w = "" := by
  intro subs
  induction subs with
  | nil => intro w hw; simp [subWriteVal] at hw
  | cons sub rest ih =>
    intro w hw
    simp only [subWriteVal] at hw
    cases hrec : subWriteVal t true h v K rest with
    | some w' =>
      rw [hrec] at hw
      injection hw with hw'
      rw [← hw']
      exact ih w' hrec
    | none =>
      rw [hrec] at hw
      by_cases hcond : strStartsWith (strLower h) (capHeaderPre true sub) = true ∧
          strLower (capKey t sub (strDrop h (strLen (capHeaderPre true sub)))) = strLower K
      · rw [if_pos hcond] at hw
        injection hw with hw'
        simp at hw'
        exact hw'.symm
      · rw [if_neg hcond] at hw
        exact absurd hw (by simp)

theorem subWriteVal_indep_v (t : ReqType) (h v v' K : String) :
    ∀ subs, subWriteVal t true h v K subs = subWriteVal t true h v' K subs := by
  intro subs
  induction subs with
  | nil => rfl
  | cons sub rest ih => simp [subWriteVal, ih]

theorem lastCaptured_clear_eq (t : ReqType) (K : String) :
    ∀ l w, lastCaptured t true K l = some w → w = "" := by
  intro l
  induction l with
  | nil => intro w hw; simp [lastCaptured] at hw
  | cons p rest ih =>
    intro w hw
    obtain ⟨h, v⟩ := p
    simp only [lastCaptured] at hw
    cases hrec : lastCaptured t true K rest with
    | some w' =>
      rw [hrec] at hw
      injection hw with hw'
      rw [← hw']
      exact ih w' hrec
    | none =>
      rw [hrec] at hw
      exact subWriteVal_clear_eq t h v K (subresources t) w hw

theorem lastCaptured_isSome_of_mem (t : ReqType) (clear : Bool) (K : String)
    {h v : String} :
    ∀ l : List (String × String), (h, v) ∈ l →
      (subWriteVal t clear h v K (subresources t)).isSome →
      (lastCaptured t clear K l).isSome := by
  intro l
  induction l with
  | nil => intro hm; simp at hm
  | cons p rest ih =>
    intro hm hsub
    rcases List.mem_cons.mp hm with he | hm'
    · subst he
      simp only [lastCaptured]
      cases hrec : lastCaptured t clear K rest with
      | some w => simp
      | none => simpa using hsub
    · have := ih hm' hsub
      simp only [lastCaptured]
      cases hrec : lastCaptured t clear K rest with
      | some w => simp
      | none => rw [hrec] at this; simp at this

theorem subWriteVal_isSome_of_cond (t : ReqType) (clear : Bool) (h v K : String)
    {sub : String} :
    ∀ subs : List String, sub ∈ subs →
      strStartsWith (strLower h) (capHeaderPre clear sub) = true →
      strLower (capKey t sub (strDrop h (strLen (capHeaderPre clear sub)))) = strLower K →
      (subWriteVal t clear h v K subs).isSome := by
  intro subs
  induction subs with
  | nil => intro hm; simp at hm
  | cons s rest ih =>
    intro hm h1 h2
    simp only [subWriteVal]
    cases hrec : subWriteVal t clear h v K rest with
    | some w => simp
    | none =>
      rcases List.mem_cons.mp hm with he | hm'
      · subst he
        rw [if_pos ⟨h1, h2⟩]
        simp
      · have := ih hm' h1 h2
        rw [hrec] at this
        simp at this

theorem lastCaptured_none_intro (t : ReqType) (clear : Bool) (K : String) :
    ∀ l : List (String × String),
      (∀ p ∈ l, subWriteVal t clear p.1 p.2 K (subresources t) = none) →
      lastCaptured t clear K l = none := by
  intro l
  induction l with
  | nil => intro _; rfl
  | cons p rest ih =>
    intro hall
    obtain ⟨h, v⟩ := p
    have hrest := ih (fun q hq => hall q (List.mem_cons_of_mem _ hq))
    simp only [lastCaptured, hrest]
    exact hall (h, v) (List.mem_cons_self _ _)

theorem lastCaptured_none_elim (t : ReqType) (clear : Bool) (K : String) :
    ∀ l : List (String × String), lastCaptured t clear K l = none →
      ∀ p ∈ l, subWriteVal t clear p.1 p.2 K (subresources t) = none := by
  intro l
  induction l with
  | nil => intro _ p hp; simp at hp
  | cons q rest ih =>
    intro hnone p hp
    obtain ⟨h, v⟩ := q
    simp only [lastCaptured] at hnone
    cases hrec : lastCaptured t clear K rest with
    | some w => rw [hrec] at hnone; simp at hnone
    | none =>
      rw [hrec] at hnone
      rcases List.mem_cons.mp hp with he | hp'
      · subst he; exact hnone
      · exact ih hrec p hp'

theorem subWriteVal_none_intro (t : ReqType) (clear : Bool) (h v K : String) :
    ∀ subs : List String,
      (∀ sub ∈ subs, ¬(strStartsWith (strLower h) (capHeaderPre clear sub) = true ∧
          strLower (capKey t sub (strDrop h (strLen (capHeaderPre clear sub)))) = strLower K)) →
      subWriteVal t clear h v K subs = none := by
  intro subs
  induction subs with
  | nil => intro _; rfl
  | cons s rest ih =>
    intro hall
    have hrest := ih (fun q hq => hall q (List.mem_cons_of_mem _ hq))
    simp only [subWriteVal, hrest]
    exact if_neg (hall s (List.mem_cons_self _ _))

/-! ## Header names flowing through the capture loops -/

theorem mem_name_subLoop (t : ReqType) (clear : Bool) (h v g : String) :
    ∀ (subs : List String) (cur : Headers) (w : String), (g, w) ∈ cur →
      ∃ w', (g, w') ∈ subLoop t clear h v subs cur := by
  intro subs
  induction subs with
  | nil => intro cur w hm; exact ⟨w, hm⟩
  | cons sub rest ih =>
    intro cur w hm
    simp only [subLoop]
    by_cases h1 : strStartsWith (strLower h) (capHeaderPre clear sub) = true
    · rw [if_pos h1]
      obtain ⟨w', hw'⟩ := mem_name_hSet _ _ hm
      exact ih _ w' hw'
    · rw [if_neg h1]
      exact ih _ w hm

theorem mem_name_capLoop (t : ReqType) (clear : Bool) (g : String) :
    ∀ (l : List (String × String)) (cur : Headers) (w : String), (g, w) ∈ cur →
      ∃ w', (g, w') ∈ capLoop t clear l cur := by
  intro l
  induction l with
  | nil => intro cur w hm; exact ⟨w, hm⟩
  | cons p rest ih =>
    intro cur w hm
    obtain ⟨h, v⟩ := p
    simp only [capLoop]
    obtain ⟨w', hw'⟩ := mem_name_subLoop t clear h v g (subresources t) cur w hm
    exact ih _ w' hw'

theorem mem_name_capturePass (t : ReqType) (clear : Bool) (hs : Headers) {g w : String}
    (hm : (g, w) ∈ hs) : ∃ w', (g, w') ∈ capturePass t clear hs :=
  mem_name_capLoop t clear g hs hs w hm

theorem mem_subLoop_name (t : ReqType) (clear : Bool) (h v : String) :
    ∀ (subs : List String) (cur : Headers) (p : String × String),
      p ∈ subLoop t clear h v subs cur →
      (∃ w, (p.1, w) ∈ cur) ∨ ∃ sub r, p.1 = capKey t sub r := by
  intro subs
  induction subs with
  | nil => intro cur p hp; exact Or.inl ⟨p.2, hp⟩
  | cons sub rest ih =>
    intro cur p hp
    simp only [subLoop] at hp
    rcases ih _ p hp with hin | hnew
    · by_cases h1 : strStartsWith (strLower h) (capHeaderPre clear sub) = true
      · rw [if_pos h1] at hin
        obtain ⟨w, hw⟩ := hin
        rcases mem_hSet_name _ _ hw with h2 | h2
        · exact Or.inl h2
        · exact Or.inr ⟨sub, strDrop h (strLen (capHeaderPre clear sub)), h2⟩
      · rw [if_neg h1] at hin
        exact Or.inl hin
    · exact Or.inr hnew

theorem mem_capLoop_name (t : ReqType) (clear : Bool) :
    ∀ (l : List (String × String)) (cur : Headers) (p : String × String),
      p ∈ capLoop t clear l cur →
      (∃ w, (p.1, w) ∈ cur) ∨ ∃ sub r, p.1 = capKey t sub r := by
  intro l
  induction l with
  | nil => intro cur p hp; exact Or.inl ⟨p.2, hp⟩
  | cons q rest ih =>
    intro cur p hp
    obtain ⟨h, v⟩ := q
    simp only [capLoop] at hp
    rcases ih _ p hp with hin | hnew
    · obtain ⟨w, hw⟩ := hin
      rcases mem_subLoop_name t clear h v (subresources t) cur (p.1, w) hw with h2 | h2
    -- mem_subLoop_name on (p.1, w): first component is p.1
      · exact Or.inl h2
      · exact Or.inr h2
    · exact Or.inr hnew

theorem mem_capturePass_name (t : ReqType) (clear : Bool) (hs : Headers)
    (p : String × String) (hp : p ∈ capturePass t clear hs) :
    (∃ w, (p.1, w) ∈ hs) ∨ ∃ sub r, p.1 = capKey t sub r :=
  mem_capLoop_name t clear hs hs p hp

/-! ## The composite do_post request transformation -/

theorem do_post_req_get (t : ReqType) (ht : ¬ t = ReqType.object) (hs : Headers) (K : String) :
    hGet (do_post_req t hs) K =
      match lastCaptured t true K (capturePass t false hs) with
      | some w => some w
      | none =>
        match lastCaptured t false K hs with
        | some w => some w
        | none => hGet hs K := by
  cases t with
  | object => exact absurd rfl ht
  | account =>
    show hGet (capturePass ReqType.account true (capturePass ReqType.account false hs)) K = _
    rw [capturePass_get, capturePass_get]
  | container =>
    show hGet (capturePass ReqType.container true (capturePass ReqType.container false hs)) K = _
    rw [capturePass_get, capturePass_get]

/-- Any request header that matches a clear (`x-remove-default-...`) pattern
for a legal subresource forces the corresponding sysmeta header to the
empty-string tombstone after `do_post` scanning. -/
theorem capture_clear_final (t : ReqType) (ht : ¬ t = ReqType.object) {sub : String}
    (hsub : sub ∈ subresources t) (h v : String) (hs : Headers)
    (hmem : (h, v) ∈ hs)
    (hmatch : strStartsWith (strLower h) (capHeaderPre true sub) = true) :
    hGet (do_post_req t hs)
      (capKey t sub (strDrop h (strLen (capHeaderPre true sub)))) = some "" := by
  obtain ⟨v', hv'⟩ := mem_name_capturePass t false hs hmem
  have hsome : (subWriteVal t true h v'
      (capKey t sub (strDrop h (strLen (capHeaderPre true sub)))) (subresources t)).isSome :=
    subWriteVal_isSome_of_cond t true h v' _ (subresources t) hsub hmatch rfl
  have hlast := lastCaptured_isSome_of_mem t true _ (capturePass t false hs) hv' hsome
  obtain ⟨w, hw⟩ := Option.isSome_iff_exists.mp hlast
  have hw0 : w = "" := lastCaptured_clear_eq t _ _ w hw
  rw [do_post_req_get t ht, hw, hw0]

/-- `do_post` scanning touches only headers in the sysmeta default
namespace of the current request type. -/
theorem do_post_req_preserve (t : ReqType) (n : String)
    (hn : strStartsWith (strLower n) (sysMetaPre t ++ "default-") = false) (hs : Headers) :
    hGet (do_post_req t hs) n = hGet hs n := by
  have hnone : ∀ (clear : Bool) (l : List (String × String)),
      lastCaptured t clear n l = none := by
    intro clear l
    apply lastCaptured_none_intro
    intro p hp
    apply subWriteVal_none_intro
    intro sub hsub hand
    exact capKey_lower_ne t sub _ n hn hand.2
  cases t with
  | object => rfl
  | account =>
    show hGet (capturePass ReqType.account true (capturePass ReqType.account false hs)) n = _
    rw [capturePass_get, hnone, capturePass_get, hnone]
  | container =>
    show hGet (capturePass ReqType.container true (capturePass ReqType.container false hs)) n = _
    rw [capturePass_get, hnone, capturePass_get, hnone]

/-! ## Facts about applyDefaults (the setdefault loop of do_put) -/

theorem applyDefaults_preserve (n w : String) :
    ∀ (d : List (String × String)) (hs : Headers), hGet hs n = some w →
      hGet (applyDefaults hs d) n = some w := by
  intro d
  induction d with
  | nil => intro hs h; exact h
  | cons p rest ih =>
    intro hs h
    obtain ⟨k, v⟩ := p
    exact ih _ (hGet_hSetDefault_some hs k v n w h)

theorem applyDefaults_absent (attr : String) :
    ∀ (d : List (String × String)) (hs : Headers) (v : String),
      hGet hs attr = none → dictGet d attr = some v →
      (∀ p ∈ d, strLower p.1 = strLower attr → p.1 = attr) →
      hGet (applyDefaults hs d) attr = some v := by
  intro d
  induction d with
  | nil => intro hs v h hd _; simp [dictGet] at hd
  | cons p rest ih =>
    intro hs v h hd huniq
    obtain ⟨k, w⟩ := p
    by_cases hk : k = attr
    · subst hk
      simp only [dictGet, if_pos rfl] at hd
      injection hd with hd'
      subst hd'
      show hGet (applyDefaults (hSetDefault hs k w) rest) k = some w
      exact applyDefaults_preserve k w rest _ (hGet_hSetDefault_absent hs k w h)
    · have hlk : ¬ strLower k = strLower attr :=
        fun he => hk (huniq (k, w) (List.mem_cons_self _ _) he)
      simp only [dictGet, if_neg hk] at hd
      show hGet (applyDefaults (hSetDefault hs k w) rest) attr = some v
      exact ih _ v (hGet_hSetDefault_none hs k w attr h hlk) hd
        (fun q hq => huniq q (List.mem_cons_of_mem _ hq))

/-! ## Facts about value resolution -/

theorem pyFormat_empty (args : List (String × String)) : pyFormat "" args = Except.ok "" := rfl

theorem resolveValue_false (args : List (String × String)) (v : String) :
    resolveValue false args v = Except.ok v := rfl

theorem resolveValue_empty (u : Bool) (args : List (String × String)) :
    resolveValue u args "" = Except.ok "" := by
  cases u
  · rfl
  · rfl

theorem resolveValue_keyError (args : List (String × String)) (v : String)
    (h : pyFormat v args = Except.error FmtError.keyError) :
    resolveValue true args v = Except.ok v := by
  simp [resolveValue, h]

/-! ## Characterization of processSrc (one merge pass of get_defaults) -/

theorem processSrc_ok_none (u : Bool) (args : List (String × String)) (pre attr : String) :
    ∀ (src d d' : List (String × String)),
      processSrc u args pre src d = Except.ok d' →
      lastDeclared pre attr src = none →
      dictGet d' attr = dictGet d attr := by
  intro src
  induction src with
  | nil =>
    intro d d' hok _
    injection hok with h
    rw [← h]
  | cons p rest ih =>
    intro d d' hok hl
    obtain ⟨k, v⟩ := p
    simp only [processSrc] at hok
    simp only [lastDeclared] at hl
    by_cases hs : strStartsWith (strLower k) pre
    · rw [if_pos hs] at hok
      cases hr : resolveValue u args v with
      | error e => rw [hr] at hok; exact absurd hok (by simp)
      | ok rv =>
        rw [hr] at hok
        cases hld : lastDeclared pre attr rest with
        | some w => rw [hld] at hl; exact absurd hl (by simp)
        | none =>
          rw [hld] at hl
          have hda : ¬ strDrop k (strLen pre) = attr := by
            intro he
            rw [if_pos ⟨hs, he⟩] at hl
            exact absurd hl (by simp)
          rw [ih _ _ hok hld, dictGet_dictSet, if_neg hda]
    · rw [if_neg hs] at hok
      cases hld : lastDeclared pre attr rest with
      | some w => rw [hld] at hl; exact absurd hl (by simp)
      | none => exact ih _ _ hok hld

theorem processSrc_ok_some (u : Bool) (args : List (String × String)) (pre attr : String) :
    ∀ (src d d' : List (String × String)) (v : String),
      processSrc u args pre src d = Except.ok d' →
      lastDeclared pre attr src = some v →
      ∃ rv, resolveValue u args v = Except.ok rv ∧ dictGet d' attr = some rv := by
  intro src
  induction src with
  | nil => intro d d' v _ hl; simp [lastDeclared] at hl
  | cons p rest ih =>
    intro d d' v hok hl
    obtain ⟨k, w⟩ := p
    simp only [processSrc] at hok
    simp only [lastDeclared] at hl
    by_cases hs : strStartsWith (strLower k) pre
    · rw [if_pos hs] at hok
      cases hr : resolveValue u args w with
      | error e => rw [hr] at hok; exact absurd hok (by simp)
      | ok rv =>
        rw [hr] at hok
        cases hld : lastDeclared pre attr rest with
        | some v' =>
          rw [hld] at hl
          injection hl with hv
          rw [← hv]
          exact ih _ _ v' hok hld
        | none =>
          rw [hld] at hl
          by_cases hda : strDrop k (strLen pre) = attr
          · rw [if_pos ⟨hs, hda⟩] at hl
            injection hl with hv
            have hnone := processSrc_ok_none u args pre attr rest _ _ hok hld
            refine ⟨rv, ?_, ?_⟩
            · rw [← hv]
              exact hr
            · rw [hnone, dictGet_dictSet, if_pos hda]
          · rw [if_neg (fun hand => hda hand.2)] at hl
            exact absurd hl (by simp)
    · rw [if_neg hs] at hok
      cases hld : lastDeclared pre attr rest with
      | some v' =>
        rw [hld] at hl
        injection hl with hv
        rw [← hv]
        exact ih _ _ v' hok hld
      | none =>
        rw [hld] at hl
        rw [if_neg (fun hand => hs hand.1)] at hl
        exact absurd hl (by simp)

/-! ## Decomposition of get_defaults for object requests -/

theorem get_defaults_object_decomp (conf : Config)
    (acctMeta contMeta args d : List (String × String))
    (hok : get_defaults conf acctMeta contMeta ReqType.object args = Except.ok d) :
    ∃ d1 d2,
      processSrc conf.use_formatting args (defaultPre ReqType.object) conf.entries []
        = Except.ok d1 ∧
      processSrc conf.use_formatting args (defaultPre ReqType.object) acctMeta d1
        = Except.ok d2 ∧
      processSrc conf.use_formatting args (defaultPre ReqType.object) contMeta d2
        = Except.ok d := by
  unfold get_defaults at hok
  rw [if_pos rfl] at hok
  split at hok
  · exact absurd hok (by simp)
  · rename_i d1 h1
    split at hok
    · exact absurd hok (by simp)
    · rename_i d2 h2
      exact ⟨d1, d2, h1, h2, hok⟩

/-- C1: Precedence of scopes: the effective defaults for an object PUT are
the merge cluster config → account sysmeta → container sysmeta, later
sources winning per attribute name; in particular, an attribute declared
at both account and container scope resolves to the container-scoped value
(the container's winning declaration, template-resolved; verbatim when
`use_formatting` is off). -/
theorem claim_C1_scope_precedence (conf : Config)
    (acctMeta contMeta args : List (String × String)) (attr : String)
    (d : List (String × String))
    (hok : get_defaults conf acctMeta contMeta ReqType.object args = Except.ok d) :
    (∀ va vc, lastDeclared (defaultPre ReqType.object) attr acctMeta = some va →
      lastDeclared (defaultPre ReqType.object) attr contMeta = some vc →
      (∃ rv, resolveValue conf.use_formatting args vc = Except.ok rv ∧
        dictGet d attr = some rv) ∧
      (conf.use_formatting = false → dictGet d attr = some vc)) ∧
    (∀ va, lastDeclared (defaultPre ReqType.object) attr contMeta = none →
      lastDeclared (defaultPre ReqType.object) attr acctMeta = some va →
      ∃ rv, resolveValue conf.use_formatting args va = Except.ok rv ∧
        dictGet d attr = some rv) := by
  obtain ⟨d1, d2, h1, h2, h3⟩ := get_defaults_object_decomp conf acctMeta contMeta args d hok
  constructor
  · intro va vc hacct hcont
    obtain ⟨rv, hrv, hd⟩ :=
      processSrc_ok_some conf.use_formatting args (defaultPre ReqType.object) attr
        contMeta d2 d vc h3 hcont
    refine ⟨⟨rv, hrv, hd⟩, ?_⟩
    intro hfmt
    rw [hfmt, resolveValue_false] at hrv
    injection hrv with he
    rw [← he] at hd
    exact hd
  · intro va hcont hacct
    have hnone :=
      processSrc_ok_none conf.use_formatting args (defaultPre ReqType.object) attr
        contMeta d2 d h3 hcont
    obtain ⟨rv, hrv, hd⟩ :=
      processSrc_ok_some conf.use_formatting args (defaultPre ReqType.object) attr
        acctMeta d1 d2 va h2 hacct
    exact ⟨rv, hrv, by rw [hnone]; exact hd⟩

/-- Witness for C1: cluster config empty, account declares
`default-object-a: 1`, container declares `default-object-a: 2`; the
resolved object default for `a` is the container's `2`. -/
theorem claim_C1_scope_precedence_witness : dictGet [("a", "2")] "a" = some "2" := by
  have hok : get_defaults ⟨false, []⟩ [("default-object-a", "1")] [("default-object-a", "2")]
      ReqType.object [] = Except.ok [("a", "2")] := rfl
  have h := (claim_C1_scope_precedence ⟨false, []⟩ [("default-object-a", "1")]
      [("default-object-a", "2")] [] "a" [("a", "2")] hok).1 "1" "2" rfl rfl
  exact h.2 rfl

/-- C2: Tombstone stops inheritance: when the container's winning
declaration for `attr` is the empty-string tombstone and the account also
declares a non-empty value, the effective object default for `attr` is the
empty string, not the account's value. -/
theorem claim_C2_tombstone (conf : Config)
    (acctMeta contMeta args : List (String × String)) (attr va : String)
    (d : List (String × String))
    (hok : get_defaults conf acctMeta contMeta ReqType.object args = Except.ok d)
    (hacct : lastDeclared (defaultPre ReqType.object) attr acctMeta = some va)
    (hva : ¬ va = "")
    (hcont : lastDeclared (defaultPre ReqType.object) attr contMeta = some "") :
    dictGet d attr = some "" ∧ ¬ dictGet d attr = some va := by
  obtain ⟨d1, d2, h1, h2, h3⟩ := get_defaults_object_decomp conf acctMeta contMeta args d hok
  obtain ⟨rv, hrv, hd⟩ :=
    processSrc_ok_some conf.use_formatting args (defaultPre ReqType.object) attr
      contMeta d2 d "" h3 hcont
  rw [resolveValue_empty] at hrv
  injection hrv with he
  rw [← he] at hd
  refine ⟨hd, ?_⟩
  intro hbad
  rw [hd] at hbad
  injection hbad with hbad'
  exact hva hbad'.symm

/-- Witness for C2: account declares `default-object-a: x`, container holds
the tombstone; the effective default is the empty string. -/
theorem claim_C2_tombstone_witness :
    dictGet [("a", "")] "a" = some "" ∧ ¬ dictGet [("a", "")] "a" = some "x" := by
  have hok : get_defaults ⟨false, []⟩ [("default-object-a", "x")] [("default-object-a", "")]
      ReqType.object [] = Except.ok [("a", "")] := rfl
  exact claim_C2_tombstone ⟨false, []⟩ [("default-object-a", "x")] [("default-object-a", "")]
    [] "a" "x" [("a", "")] hok rfl (by decide) rfl

/-- C5 counterexample: the claim says a value whose template references a
placeholder absent from the request's mapping is used unmodified and never
fails the request, whatever the value string is.  The value `{0}`
references positional placeholder 0, absent from the keyword-only mapping;
`str.format` raises IndexError, which the code does not catch, so
`get_defaults` — and with it the whole PUT — fails instead of using the
value unmodified. -/
theorem claim_C5_counterexample :
    get_defaults ⟨true, [("default-object-foo", "{0}")]⟩ [] [] ReqType.object
      [("account", "a")] = Except.error FmtError.indexError ∧
    do_put_req ⟨true, [("default-object-foo", "{0}")]⟩ [] [] ReqType.object
      [("account", "a")] [] = Except.error FmtError.indexError := ⟨rfl, rfl⟩

/-- C5 (amended): formatting tolerance holds exactly for KeyError: when the
value's template substitution raises KeyError (a named placeholder absent
from the mapping), the value is used completely unmodified and resolution
does not fail; other substitution errors (positional placeholders against
the empty positional tuple, malformed templates) propagate and fail the
request. -/
theorem claim_C5_amended (v : String) (args : List (String × String))
    (h : pyFormat v args = Except.error FmtError.keyError) :
    resolveValue true args v = Except.ok v ∧
    get_defaults ⟨true, [("default-object-foo", v)]⟩ [] [] ReqType.object args =
      Except.ok [("foo", v)] := by
  have hr := resolveValue_keyError args v h
  refine ⟨hr, ?_⟩
  have hsw : strStartsWith (strLower "default-object-foo") (defaultPre ReqType.object)
      = true := by decide
  have hkeyeq : strDrop "default-object-foo" (strLen (defaultPre ReqType.object))
      = "foo" := by decide
  have hstep : processSrc true args (defaultPre ReqType.object)
      [("default-object-foo", v)] [] = Except.ok [("foo", v)] := by
    simp only [processSrc, hsw, if_true, hr]
    rw [hkeyeq]
    rfl
  simp only [get_defaults, hstep]
  rfl

/-- Witness for C5 (amended): the documented `{container}` placeholder with
no container component resolves to the literal value. -/
theorem claim_C5_amended_witness :
    resolveValue true [("account", "a")] "{container}" = Except.ok "{container}" ∧
    get_defaults ⟨true, [("default-object-foo", "{container}")]⟩ [] [] ReqType.object
      [("account", "a")] = Except.ok [("foo", "{container}")] :=
  claim_C5_amended "{container}" [("account", "a")] rfl

/-- C8: a request whose path does not split into at least (version,
account) is forwarded to the downstream application completely untouched —
no defaults applied, no declarations captured, no response translation —
and this is not an error. -/
theorem claim_C8_passthrough (app : Headers → Headers) (conf : Config)
    (acctMeta contMeta : List (String × String)) (m : Method) (hs : Headers) :
    callForward conf acctMeta contMeta m { parsed := none, headers := hs } = Except.ok hs ∧
    callMiddleware app conf acctMeta contMeta m { parsed := none, headers := hs } =
      Except.ok (app hs) := ⟨rfl, rfl⟩

/-! ## String helpers for reasoning about concatenated header names -/

theorem strAppend_assoc (a b c : String) : (a ++ b) ++ c = a ++ (b ++ c) := by
  apply strExt
  rw [strData_append, strData_append, strData_append, strData_append, List.append_assoc]

theorem strStartsWith_lower_pre (p s : String) (hp : strLower p = p) :
    strStartsWith (strLower (p ++ s)) p = true := by
  rw [strLower_append, hp]
  exact strStartsWith_self_append p (strLower s)

theorem strStartsWith_lower_false_of_le (p q s : String) (hp : strLower p = p)
    (hlen : strLen q ≤ strLen p) (hq : strStartsWith p q = false) :
    strStartsWith (strLower (p ++ s)) q = false := by
  rw [strLower_append, hp]
  show q.data.isPrefixOf ((p ++ strLower s).data) = false
  rw [strData_append]
  rw [isPrefixOf_append_left q.data p.data (strLower s).data hlen]
  exact hq

theorem strStartsWith_lower_false_of_ge (p q s : String) (hp : strLower p = p)
    (hlen : strLen p ≤ strLen q) (hq : strStartsWith q p = false) :
    strStartsWith (strLower (p ++ s)) q = false := by
  rw [strLower_append, hp]
  show q.data.isPrefixOf ((p ++ strLower s).data) = false
  rw [strData_append]
  exact isPrefixOf_false_of_longer p.data q.data (strLower s).data hq hlen

theorem strDrop_lenOf (p p' s : String) (hpp : p = p') :
    strDrop (p ++ s) (strLen p') = s := by
  rw [← hpp]
  exact strDrop_append p s

/-! ## C3: non-clobber -/

/-- C3 counterexample: the claim says every header present on the inbound
PUT keeps its client-supplied value on the forwarded request.  A container
PUT carrying both the persisted-metadata header
`x-container-sysmeta-default-object-Foo: w` and the declaration header
`X-Default-Object-Foo: v` forwards the former with value `v`, not `w`: the
declaration-capture step of the PUT flow overwrites it. -/
theorem claim_C3_counterexample :
    hGet [("x-container-sysmeta-default-object-Foo", "w"), ("X-Default-Object-Foo", "v")]
      "x-container-sysmeta-default-object-foo" = some "w" ∧
    do_put_req ⟨false, []⟩ [] [] ReqType.container []
      [("x-container-sysmeta-default-object-Foo", "w"), ("X-Default-Object-Foo", "v")] =
      Except.ok
        [("x-container-sysmeta-default-object-Foo", "v"), ("X-Default-Object-Foo", "v")] ∧
    hGet [("x-container-sysmeta-default-object-Foo", "v"), ("X-Default-Object-Foo", "v")]
      "x-container-sysmeta-default-object-foo" = some "v" := ⟨rfl, rfl, rfl⟩

/-- C3 (amended): on every PUT, a header already present on the inbound
request keeps its client-supplied value on the forwarded request provided
its name lies outside the `<sysmeta-prefix>default-` namespace of the
current depth (headers inside that namespace can be rewritten by the
declaration-capture step); and resolved defaults are applied with
set-if-absent semantics, so they never override any present header. -/
theorem claim_C3_amended (conf : Config) (acctMeta contMeta args : List (String × String))
    (t : ReqType) (hs hs' : Headers) (A w : String)
    (hok : do_put_req conf acctMeta contMeta t args hs = Except.ok hs')
    (hpres : hGet hs A = some w)
    (hns : strStartsWith (strLower A) (sysMetaPre t ++ "default-") = false) :
    hGet hs' A = some w ∧
    (∀ d : List (String × String), hGet (applyDefaults hs d) A = some w) := by
  unfold do_put_req at hok
  split at hok
  · exact absurd hok (by simp)
  · rename_i d hd
    injection hok with hok'
    subst hok'
    constructor
    · rw [do_post_req_preserve t A hns]
      exact applyDefaults_preserve A w d hs hpres
    · intro d'
      exact applyDefaults_preserve A w d' hs hpres

/-- Witness for C3 (amended): a PUT carrying `X-Delete-After: 5` keeps it. -/
theorem claim_C3_amended_witness :
    hGet [("X-Delete-After", "5")] "X-Delete-After" = some "5" := by
  have h := claim_C3_amended ⟨false, []⟩ [] [] [] ReqType.container
    [("X-Delete-After", "5")] [("X-Delete-After", "5")] "X-Delete-After" "5" rfl rfl (by decide)
  exact h.1

/-! ## C4: round-trip declare/expose -/

/-- C4 counterexample: POST account `X-Default-Container-Foo: bar` persists
`x-account-sysmeta-default-container-Foo`; translating a response carrying
that persisted header adds `x-default-container-Foo`, and the header
`X-Default-Foo` the claim promises is absent. -/
theorem claim_C4_counterexample :
    do_post_req ReqType.account [("X-Default-Container-Foo", "bar")] =
      [("X-Default-Container-Foo", "bar"),
        ("x-account-sysmeta-default-container-Foo", "bar")] ∧
    translateHeaders ReqType.account [("x-account-sysmeta-default-container-Foo", "bar")] =
      [("x-account-sysmeta-default-container-Foo", "bar"),
        ("x-default-container-Foo", "bar")] ∧
    hGet (translateHeaders ReqType.account
        [("x-account-sysmeta-default-container-Foo", "bar")]) "x-default-foo" = none ∧
    hGet (translateHeaders ReqType.account
        [("x-account-sysmeta-default-container-Foo", "bar")]) "x-default-container-foo" =
      some "bar" := ⟨rfl, rfl, rfl, rfl⟩

/-- C4 (amended): a POST to an account carrying
`x-default-container-<attr>: v` persists the sysmeta key
`x-account-sysmeta-default-container-<attr>`, and any response carrying
that persisted header exposes `x-default-container-<attr>: v` — the
client-facing name keeps the subresource segment, it is not
`x-default-<attr>`. -/
theorem claim_C4_amended (attr v : String) :
    hGet (do_post_req ReqType.account [("x-default-container-" ++ attr, v)])
      (capKey ReqType.account "container" attr) = some v ∧
    hGet (translateHeaders ReqType.account [(capKey ReqType.account "container" attr, v)])
      ("x-default-container-" ++ attr) = some v := by
  have hobj : strStartsWith (strLower ("x-default-container-" ++ attr))
      (capHeaderPre false "object") = false := by
    rw [show capHeaderPre false "object" = "x-default-object-" from by decide]
    exact strStartsWith_lower_false_of_le "x-default-container-" "x-default-object-" attr
      (by decide) (by decide) (by decide)
  have hcont : strStartsWith (strLower ("x-default-container-" ++ attr))
      (capHeaderPre false "container") = true := by
    rw [show capHeaderPre false "container" = "x-default-container-" from by decide]
    exact strStartsWith_lower_pre "x-default-container-" attr (by decide)
  have hdrop : strDrop ("x-default-container-" ++ attr)
      (strLen (capHeaderPre false "container")) = attr :=
    strDrop_lenOf "x-default-container-" (capHeaderPre false "container") attr (by decide)
  constructor
  · -- the capture side
    have hsub : subWriteVal ReqType.account false ("x-default-container-" ++ attr) v
        (capKey ReqType.account "container" attr) ["container", "object"] = some v := by
      simp only [subWriteVal, hobj, Bool.false_eq_true, false_and, if_false, hdrop, hcont,
        true_and, if_pos]
    have hlastset : lastCaptured ReqType.account false
        (capKey ReqType.account "container" attr)
        [("x-default-container-" ++ attr, v)] = some v := by
      simp only [lastCaptured, subresources, hsub]
    have hclear : lastCaptured ReqType.account true
        (capKey ReqType.account "container" attr)
        (capturePass ReqType.account false [("x-default-container-" ++ attr, v)]) = none := by
      apply lastCaptured_none_intro
      intro p hp
      rcases mem_capturePass_name ReqType.account false _ p hp with ⟨w, hw⟩ | ⟨sub2, r2, hkey⟩
      · simp only [List.mem_singleton] at hw
        injection hw with hw1 hw2
        apply subWriteVal_none_intro
        intro sub hsubm hand
        rw [hw1] at hand
        simp only [subresources, List.mem_cons, List.mem_singleton] at hsubm
        rcases hsubm with hc | hc
        · subst hc
          have hF := strStartsWith_lower_false_of_ge "x-default-container-"
            (capHeaderPre true "container") attr (by decide) (by decide) (by decide)
          have h1 := hand.1
          rw [hF] at h1
          exact Bool.false_ne_true h1
        · rcases hc with hc | hc
          · subst hc
            have hF := strStartsWith_lower_false_of_ge "x-default-container-"
              (capHeaderPre true "object") attr (by decide) (by decide) (by decide)
            have h1 := hand.1
            rw [hF] at h1
            exact Bool.false_ne_true h1
          · exact absurd hc (by simp)
      · apply subWriteVal_none_intro
        intro sub hsubm hand
        rw [hkey] at hand
        have h1 := hand.1
        rw [capKey_not_capMatch ReqType.account sub2 r2 true sub] at h1
        exact Bool.false_ne_true h1
    rw [do_post_req_get ReqType.account (by decide), hclear, hlastset]
  · -- the exposure side
    have hcn : clientName ReqType.account (capKey ReqType.account "container" attr)
        = "x-default-container-" ++ attr := by
      unfold clientName
      rw [show strDrop (capKey ReqType.account "container" attr)
          (strLen (sysMetaPre ReqType.account ++ "default-"))
          = "container" ++ ("-" ++ attr) from
        strDrop_append (sysMetaPre ReqType.account ++ "default-") ("container" ++ ("-" ++ attr))]
      rw [show ("container" ++ ("-" ++ attr) : String) = ("container" ++ "-") ++ attr from
        (strAppend_assoc "container" "-" attr).symm]
      rw [← strAppend_assoc "x-default-" ("container" ++ "-") attr]
      rw [show ("x-default-" ++ ("container" ++ "-") : String) = "x-default-container-" from
        by decide]
    have hlaste : lastExposed ReqType.account ("x-default-container-" ++ attr)
        [(capKey ReqType.account "container" attr, v)] = some v := by
      simp only [lastExposed]
      rw [if_pos ⟨capKey_startsWith ReqType.account "container" attr, by rw [hcn]⟩]
    rw [translateHeaders_get, hlaste]

/-! ## C6, C9: declaration capture on POST -/

theorem subresources_low {t : ReqType} {sub : String} (hsub : sub ∈ subresources t)
    (clear : Bool) : strLower (capHeaderPre clear sub) = capHeaderPre clear sub := by
  cases t with
  | account =>
    simp only [subresources, List.mem_cons, List.mem_singleton] at hsub
    rcases hsub with h | h
    · subst h; cases clear <;> decide
    · rcases h with h | h
      · subst h; cases clear <;> decide
      · exact absurd h (by simp)
  | container =>
    simp only [subresources, List.mem_cons, List.mem_singleton] at hsub
    rcases hsub with h | h
    · subst h; cases clear <;> decide
    · exact absurd h (by simp)
  | object => simp [subresources] at hsub

/-- C6: capture of default declarations on POST.  At account depth the legal
subresources are container and object, at container depth only object
(`subresources`).  (a) Every request header matching the clear pattern
`x-remove-default-<sub>-<attr>` (case-insensitively) forces the persisted
key — whose `<attr>` part keeps the header's original casing — to the empty
string, regardless of the header's own value.  (b) The persisted key ends
up holding the value of the last matching set-pattern header verbatim,
provided no clear-pattern header targets the same key. -/
theorem claim_C6_declaration_capture (t : ReqType)
    (ht : t = ReqType.account ∨ t = ReqType.container) (hs : Headers) :
    (∀ (h v sub : String), sub ∈ subresources t →
      (h, v) ∈ hs →
      strStartsWith (strLower h) (capHeaderPre true sub) = true →
      hGet (do_post_req t hs)
        (capKey t sub (strDrop h (strLen (capHeaderPre true sub)))) = some "") ∧
    (∀ (K v : String),
      lastCaptured t false K hs = some v →
      lastCaptured t true K hs = none →
      hGet (do_post_req t hs) K = some v) := by
  have htno : ¬ t = ReqType.object := by
    rcases ht with h | h <;> subst h <;> decide
  constructor
  · intro h v sub hsub hmem hmatch
    exact capture_clear_final t htno hsub h v hs hmem hmatch
  · intro K v hset hclear
    have hclear1 : lastCaptured t true K (capturePass t false hs) = none := by
      apply lastCaptured_none_intro
      intro p hp
      rcases mem_capturePass_name t false hs p hp with ⟨w, hw⟩ | ⟨sub2, r2, hkey⟩
      · have hnone := lastCaptured_none_elim t true K hs hclear (p.1, w) hw
        rw [subWriteVal_indep_v t p.1 p.2 w K (subresources t)]
        exact hnone
      · apply subWriteVal_none_intro
        intro sub hsubm hand
        rw [hkey] at hand
        have h1 := hand.1
        rw [capKey_not_capMatch t sub2 r2 true sub] at h1
        exact Bool.false_ne_true h1
    rw [do_post_req_get t htno, hclear1, hset]

/-- Witness for C6: a POST to an account with a clear header for
`object`/`Foo` (value irrelevant) and a set header for `container`/`Bar`. -/
theorem claim_C6_declaration_capture_witness :
    hGet (do_post_req ReqType.account
        [("X-Remove-Default-Object-Foo", "1"), ("x-default-container-Bar", "baz")])
      (capKey ReqType.account "object"
        (strDrop "X-Remove-Default-Object-Foo" (strLen (capHeaderPre true "object"))))
      = some "" ∧
    hGet (do_post_req ReqType.account
        [("X-Remove-Default-Object-Foo", "1"), ("x-default-container-Bar", "baz")])
      "x-account-sysmeta-default-container-Bar" = some "baz" := by
  have h := claim_C6_declaration_capture ReqType.account (Or.inl rfl)
    [("X-Remove-Default-Object-Foo", "1"), ("x-default-container-Bar", "baz")]
  constructor
  · exact h.1 "X-Remove-Default-Object-Foo" "1" "object" (by simp [subresources])
      (by simp) (by decide)
  · exact h.2 "x-account-sysmeta-default-container-Bar" "baz" rfl rfl

/-- C9 (implicit): if one POST carries both the set and the clear header
for the same legal subresource and attribute, the persisted key ends up as
the empty-string tombstone: the clear pass runs after the set pass. -/
theorem claim_C9_clear_beats_set (t : ReqType)
    (ht : t = ReqType.account ∨ t = ReqType.container)
    (sub : String) (hsub : sub ∈ subresources t) (attr v w : String) (hs : Headers)
    (hset : (capHeaderPre false sub ++ attr, v) ∈ hs)
    (hrem : (capHeaderPre true sub ++ attr, w) ∈ hs) :
    hGet (do_post_req t hs) (capKey t sub attr) = some "" := by
  have htno : ¬ t = ReqType.object := by
    rcases ht with h | h <;> subst h <;> decide
  have hmatch : strStartsWith (strLower (capHeaderPre true sub ++ attr))
      (capHeaderPre true sub) = true :=
    strStartsWith_lower_pre (capHeaderPre true sub) attr (subresources_low hsub true)
  have hdrop : strDrop (capHeaderPre true sub ++ attr) (strLen (capHeaderPre true sub))
      = attr := strDrop_append _ _
  have h := capture_clear_final t htno hsub (capHeaderPre true sub ++ attr) w hs hrem hmatch
  rw [hdrop] at h
  exact h

/-- Witness for C9: a container POST with both `x-default-object-a: v` and
`x-remove-default-object-a: 1` leaves the tombstone. -/
theorem claim_C9_clear_beats_set_witness :
    hGet (do_post_req ReqType.container
        [(capHeaderPre false "object" ++ "a", "v"), (capHeaderPre true "object" ++ "a", "1")])
      (capKey ReqType.container "object" "a") = some "" :=
  claim_C9_clear_beats_set ReqType.container (Or.inr rfl) "object" (by simp [subresources])
    "a" "v" "1" _ (by simp) (by simp)

/-! ## C7: response exposure -/

/-- C7: for every parsed request, whatever the method and depth, the
response is translated: each response header in the sysmeta default
namespace (here the winning such header for its derived client name) gets
a client-facing twin `x-default-<remainder>` with the same value, the
original header stays present and untouched, and the translation step is a
total function that cannot fail. -/
theorem claim_C7_response_exposure (t : ReqType) (resp : Headers) (h v : String)
    (hmem : (h, v) ∈ resp)
    (hmatch : strStartsWith (strLower h) (sysMetaPre t ++ "default-") = true)
    (hlast : lastExposed t (clientName t h) resp = some v) :
    (hGet (translateHeaders t resp) (clientName t h) = some v ∧
      hGet (translateHeaders t resp) h = hGet resp h ∧
      ¬ hGet resp h = none) ∧
    (∀ (app : Headers → Headers) (conf : Config)
        (acctMeta contMeta : List (String × String)) (m : Method) (pi : PathInfo)
        (hs fwd : Headers),
      callForward conf acctMeta contMeta m { parsed := some pi, headers := hs }
        = Except.ok fwd →
      callMiddleware app conf acctMeta contMeta m { parsed := some pi, headers := hs }
        = Except.ok (translateHeaders (reqTypeOf pi) (app fwd))) := by
  constructor
  · refine ⟨?_, ?_, ?_⟩
    · rw [translateHeaders_get, hlast]
    · rw [translateHeaders_get]
      have hnone : lastExposed t h resp = none := by
        apply lastExposed_none_intro
        intro p hp hand
        exact transName_not_sysMatch t _ h hmatch hand.2
      rw [hnone]
    · intro hbad
      have hsome := hGet_isSome_of_mem hmem
      rw [hbad] at hsome
      simp at hsome
  · intro app conf acctMeta contMeta m pi hs fwd hfwd
    show (match callForward conf acctMeta contMeta m { parsed := some pi, headers := hs } with
      | Except.error e => Except.error e
      | Except.ok fwd' => Except.ok (translateHeaders (reqTypeOf pi) (app fwd'))) =
      Except.ok (translateHeaders (reqTypeOf pi) (app fwd))
    rw [hfwd]

/-- Witness for C7: an account response carrying a persisted default is
translated into the client-facing header with the same value. -/
theorem claim_C7_response_exposure_witness :
    hGet (translateHeaders ReqType.account
        [("X-Account-Sysmeta-Default-Container-Foo", "bar")])
      (clientName ReqType.account "X-Account-Sysmeta-Default-Container-Foo") = some "bar" := by
  have h := claim_C7_response_exposure ReqType.account
    [("X-Account-Sysmeta-Default-Container-Foo", "bar")]
    "X-Account-Sysmeta-Default-Container-Foo" "bar" (by simp) (by decide) rfl
  exact h.1.1

/-! ## C10: tombstones materialize as empty headers on PUT -/

/-- C10 (implicit): when the effective default for `attr` resolves to the
tombstone (empty string), the client did not supply `attr`, the resolved
defaults have no case-colliding twin of `attr`, and `attr` is not itself a
sysmeta default key, the forwarded PUT carries `attr` present with the
empty string as value rather than omitting it. -/
theorem claim_C10_tombstone_header (conf : Config)
    (acctMeta contMeta args : List (String × String)) (t : ReqType)
    (ht : t = ReqType.container ∨ t = ReqType.object)
    (hs : Headers) (attr : String) (d : List (String × String))
    (hok : get_defaults conf acctMeta contMeta t args = Except.ok d)
    (hts : dictGet d attr = some "")
    (habsent : hGet hs attr = none)
    (huniq : ∀ p ∈ d, strLower p.1 = strLower attr → p.1 = attr)
    (hns : strStartsWith (strLower attr) (sysMetaPre t ++ "default-") = false) :
    do_put_req conf acctMeta contMeta t args hs =
      Except.ok (do_post_req t (applyDefaults hs d)) ∧
    hGet (do_post_req t (applyDefaults hs d)) attr = some "" := by
  constructor
  · unfold do_put_req
    rw [hok]
  · rw [do_post_req_preserve t attr hns]
    exact applyDefaults_absent attr d hs "" habsent hts huniq

/-- Witness for C10: the account-scoped tombstone `default-object-a`
materializes as an empty `a` header on an object PUT with no `a` header. -/
theorem claim_C10_tombstone_header_witness :
    do_put_req ⟨false, []⟩ [("default-object-a", "")] [] ReqType.object [] [] =
      Except.ok (do_post_req ReqType.object (applyDefaults [] [("a", "")])) ∧
    hGet (do_post_req ReqType.object (applyDefaults [] [("a", "")])) "a" = some "" :=
  claim_C10_tombstone_header ⟨false, []⟩ [("default-object-a", "")] [] [] ReqType.object
    (Or.inr rfl) [] "a" [("a", "")] rfl rfl rfl
    (by intro p hp he
        rw [List.mem_singleton] at hp
        subst hp
        rfl)
    (by decide)
